import Mathlib

/-!
Verification of the font-resolution cache (`FontSystem`, src/font/system/std.rs)
and the glyph-rasterization cache (`SwashCache`, src/swash.rs) of cosmic-text.

The external collaborators (the fontdb database engine, the swash scaler, the
`Font::new` adapter constructor, locale detection) are modelled as opaque
oracle functions carried inside the state; their results are only compared for
equality, which matches how the code uses them.  Machine integers are embedded
as `Nat`/`Int` with the casts and wraps made explicit where they matter: the
`with_pixels` loops run to the u32 dimensions cast `as i32` (empty for
dimensions at or above 2^31), and its coordinate sums are i32 additions
(`wrap32`); values that provably cannot wrap (the usize byte index) stay
plain `Nat`.

The caches are `HashMap`s in the code; they are embedded as association lists
with `List.lookup` semantics, and cache insertion conses a fresh binding in
front (the code only inserts keys that are absent, via `entry(..).or_insert_with`
or a read-miss followed by `insert`, so the two representations agree).

Following the spec's own suggestion ("observable via an invocation counter in
a test double"), the states carry counters that tick every time an expensive
path (database query, font construction, monospace face scan, outline
extraction) actually runs, so that memoization claims are statable.
-/

/-- Opaque stable face identifier assigned by the font database (fontdb::ID). -/
abbrev FaceID := Nat

/-- fontdb::Style; used only through equality, embedded as an opaque key. -/
abbrev Style := Nat

/-- fontdb::Weight (a u16 wrapper); used only through equality. -/
abbrev Weight := Nat

/-- fontdb::Stretch; used only through equality. -/
abbrev Stretch := Nat

/-- Opaque handle for a constructed `Font` object (crate::Font behind Arc). -/
abbrev FontHandle := Nat

/-- crate::FamilyOwned: a generic family class or a literal family name. -/
inductive FamilyOwned where
  | serif
  | sansSerif
  | cursive
  | fantasy
  | monospace
  | name (s : String)
deriving DecidableEq, Repr

/-- The subset of crate::Attrs read by the FontSystem operations:
`monospaced`, `stretch`, `style`, `weight` (the family list is passed
separately to `query`, matching the Rust signature). -/
structure Attrs where
  monospaced : Bool
  stretch : Stretch
  style : Style
  weight : Weight
deriving DecidableEq, Repr

/-- crate::FontAttrs, the memoization key of `FontSystem::query`:
family list plus the four attribute fields. -/
structure FontAttrs where
  family : List FamilyOwned
  monospaced : Bool
  stretch : Stretch
  style : Style
  weight : Weight
deriving DecidableEq, Repr

/-- fontdb::Query as built inside `FontSystem::query`: families plus
style/weight/stretch.  Note the `monospaced` flag is *not* part of the
database query, only of the cache key.  `FamilyOwned::as_family` is a
borrowing identity conversion, so families are kept as `FamilyOwned`. -/
structure DbQuery where
  families : List FamilyOwned
  style : Style
  weight : Weight
  stretch : Stretch
deriving DecidableEq, Repr

/-- Per-face metadata as exposed by fontdb (`FaceInfo`): the fields read by
`query_monospace` and `face_name`. -/
structure FaceInfo where
  id : FaceID
  monospaced : Bool
  weight : Weight
  stretch : Stretch
  style : Style
  families : List String
  post_script_name : String
deriving DecidableEq, Repr

/-- The external fontdb database: its face enumeration (in stable enumeration
order, as returned by `Database::faces`) and its family/attribute matching
algorithm (`Database::query`), treated as an opaque total function. -/
structure Database where
  faces : List FaceInfo
  queryFn : DbQuery → Option FaceID

/-- `Database::face(id)`: fetch face metadata by id (first face with that id;
fontdb ids are unique so this is the lookup). -/
def Database.face (db : Database) (id : FaceID) : Option FaceInfo :=
  db.faces.find? (fun f => f.id == id)

/-- State of `FontSystem` (src/font/system/std.rs): the locale, the database,
the three caches, the external `Font::new` constructor as an oracle, and
instrumentation counters for the expensive paths. -/
structure FontSystemState where
  locale : String
  db : Database
  fontNew : FaceInfo → Option FontHandle
  font_cache : List (FaceID × Option FontHandle)
  quey_cache : List (FontAttrs × Option FaceID)
  monospace_cache : List ((Style × Weight × Stretch) × Option FaceID)
  dbQueryCount : Nat
  fontNewCount : Nat
  faceScanCount : Nat

/-- `FontSystem::query` (std.rs:124-149): build the `FontAttrs` key, answer
from `quey_cache` on a hit; on a miss run the database query algorithm,
insert the (possibly `None`) result and return it.  The counter ticks
exactly when `db.read().query(..)` runs. -/
def FontSystemState.query (st : FontSystemState) (family : List FamilyOwned)
    (attrs : Attrs) : Option FaceID × FontSystemState :=
  let font_attrs : FontAttrs :=
    { family := family, monospaced := attrs.monospaced, stretch := attrs.stretch,
      style := attrs.style, weight := attrs.weight }
  match st.quey_cache.lookup font_attrs with
  | some f => (f, st)
  | none =>
    let result := st.db.queryFn
      { families := family, style := attrs.style, weight := attrs.weight,
        stretch := attrs.stretch }
    (result,
      { st with quey_cache := (font_attrs, result) :: st.quey_cache,
                dbQueryCount := st.dbQueryCount + 1 })

/-- `FontSystem::get_font` (std.rs:100-122): answer from `font_cache` on a
hit; on a miss run the construction path (`db.face(id)` then `Font::new`),
insert the (possibly `None`) result and return it.  The counter ticks exactly
when the construction closure runs. -/
def FontSystemState.get_font (st : FontSystemState) (id : FaceID) :
    Option FontHandle × FontSystemState :=
  match st.font_cache.lookup id with
  | some f => (f, st)
  | none =>
    let constructed : Option FontHandle :=
      match st.db.face id with
      | none => none
      | some face => st.fontNew face
    (constructed,
      { st with font_cache := (id, constructed) :: st.font_cache,
                fontNewCount := st.fontNewCount + 1 })

/-- The per-face predicate of the `query_monospace` scan loop
(std.rs:157-162), in the source's operand order. -/
def monospaceMatch (attrs : Attrs) (face : FaceInfo) : Bool :=
  face.monospaced && face.weight == attrs.weight
    && face.stretch == attrs.stretch && face.style == attrs.style

/-- `FontSystem::query_monospace` (std.rs:151-169): answer from
`monospace_cache` on a hit; on a miss scan `db.faces()` in enumeration order,
return the first face matching `monospaceMatch` (the loop's early return),
or `None` after the loop; either way insert the result under the
(style, weight, stretch) key.  The counter ticks exactly when a scan runs. -/
def FontSystemState.query_monospace (st : FontSystemState) (attrs : Attrs) :
    Option FaceID × FontSystemState :=
  let key : Style × Weight × Stretch := (attrs.style, attrs.weight, attrs.stretch)
  match st.monospace_cache.lookup key with
  | some f => (f, st)
  | none =>
    let result := (st.db.faces.find? (monospaceMatch attrs)).map (fun f => f.id)
    (result,
      { st with monospace_cache := (key, result) :: st.monospace_cache,
                faceScanCount := st.faceScanCount + 1 })

/-- `FontSystem::face_name` (std.rs:171-181): first declared family name,
else the PostScript name, else the sentinel for an unknown id.  Takes `&self`
with only a read lock in the source, hence embedded as a pure read. -/
def FontSystemState.face_name (st : FontSystemState) (id : FaceID) : String :=
  match st.db.face id with
  | some face =>
    match face.families.head? with
    | some name => name
    | none => face.post_script_name
  | none => "invalid font id"

/-- `FontSystem::locale` (std.rs:94-96): a pure read of the stored locale. -/
def FontSystemState.getLocale (st : FontSystemState) : String :=
  st.locale

/-- C1: query called twice with equal arguments returns the same result both
times; after the first call the key is cached, the second call leaves the
state untouched (answered from the cache, no database invocation), and the
two calls together run the database query algorithm at most once. -/
theorem query_idempotent_memoized (st : FontSystemState)
    (family : List FamilyOwned) (attrs : Attrs) :
    (st.query family attrs).1 = ((st.query family attrs).2.query family attrs).1
    ∧ (st.query family attrs).2.quey_cache.lookup
        { family := family, monospaced := attrs.monospaced,
          stretch := attrs.stretch, style := attrs.style, weight := attrs.weight }
        = some (st.query family attrs).1
    ∧ ((st.query family attrs).2.query family attrs).2 = (st.query family attrs).2
    ∧ (st.query family attrs).2.dbQueryCount ≤ st.dbQueryCount + 1 := by
  unfold FontSystemState.query
  rcases h : st.quey_cache.lookup
      { family := family, monospaced := attrs.monospaced, stretch := attrs.stretch,
        style := attrs.style, weight := attrs.weight } with _ | f
  · simp [h, List.lookup]
  · simp [h]

/-- A fixed empty state: empty database, empty caches, a `Font::new` oracle
that always fails.  Used as a concrete input in witnesses. -/
def emptySt : FontSystemState :=
  { locale := "en-US", db := { faces := [], queryFn := fun _ => none },
    fontNew := fun _ => none, font_cache := [], quey_cache := [],
    monospace_cache := [], dbQueryCount := 0, fontNewCount := 0,
    faceScanCount := 0 }

/-- A concrete monospaced face. -/
def faceA : FaceInfo :=
  { id := 1, monospaced := true, weight := 400, stretch := 5, style := 0,
    families := ["Fira Mono"], post_script_name := "FiraMono-Regular" }

/-- A second monospaced face with the same (style, weight, stretch) triple. -/
def faceB : FaceInfo :=
  { id := 2, monospaced := true, weight := 400, stretch := 5, style := 0,
    families := ["Liberation Mono"], post_script_name := "LiberationMono" }

/-- A state whose database enumerates `faceA` before `faceB`. -/
def twoMonoSt : FontSystemState :=
  { locale := "en-US", db := { faces := [faceA, faceB], queryFn := fun _ => none },
    fontNew := fun _ => some 0, font_cache := [], quey_cache := [],
    monospace_cache := [], dbQueryCount := 0, fontNewCount := 0,
    faceScanCount := 0 }

/-- Unfolding lemma: `query` on a cache hit. -/
theorem query_eq_hit (st : FontSystemState) (family : List FamilyOwned)
    (attrs : Attrs) (f : Option FaceID)
    (h : st.quey_cache.lookup
      ⟨family, attrs.monospaced, attrs.stretch, attrs.style, attrs.weight⟩ = some f) :
    st.query family attrs = (f, st) := by
  simp [FontSystemState.query, h]

/-- Unfolding lemma: `query` on a cache miss. -/
theorem query_eq_miss (st : FontSystemState) (family : List FamilyOwned)
    (attrs : Attrs)
    (h : st.quey_cache.lookup
      ⟨family, attrs.monospaced, attrs.stretch, attrs.style, attrs.weight⟩ = none) :
    st.query family attrs =
      (st.db.queryFn ⟨family, attrs.style, attrs.weight, attrs.stretch⟩,
        { st with
          quey_cache :=
            ((⟨family, attrs.monospaced, attrs.stretch, attrs.style, attrs.weight⟩,
              st.db.queryFn ⟨family, attrs.style, attrs.weight, attrs.stretch⟩)
              :: st.quey_cache),
          dbQueryCount := st.dbQueryCount + 1 }) := by
  simp [FontSystemState.query, h]

/-- Unfolding lemma: `get_font` on a cache hit. -/
theorem get_font_eq_hit (st : FontSystemState) (id : FaceID) (f : Option FontHandle)
    (h : st.font_cache.lookup id = some f) :
    st.get_font id = (f, st) := by
  simp [FontSystemState.get_font, h]

/-- Unfolding lemma: `get_font` on a cache miss. -/
theorem get_font_eq_miss (st : FontSystemState) (id : FaceID)
    (h : st.font_cache.lookup id = none) :
    st.get_font id =
      (match st.db.face id with
        | none => none
        | some face => st.fontNew face,
        { st with
          font_cache :=
            ((id, match st.db.face id with
              | none => none
              | some face => st.fontNew face) :: st.font_cache),
          fontNewCount := st.fontNewCount + 1 }) := by
  simp [FontSystemState.get_font, h]

/-- Unfolding lemma: `query_monospace` on a cache hit. -/
theorem query_monospace_eq_hit (st : FontSystemState) (attrs : Attrs)
    (f : Option FaceID)
    (h : st.monospace_cache.lookup (attrs.style, attrs.weight, attrs.stretch)
      = some f) :
    st.query_monospace attrs = (f, st) := by
  simp [FontSystemState.query_monospace, h]

/-- Unfolding lemma: `query_monospace` on a cache miss. -/
theorem query_monospace_eq_miss (st : FontSystemState) (attrs : Attrs)
    (h : st.monospace_cache.lookup (attrs.style, attrs.weight, attrs.stretch)
      = none) :
    st.query_monospace attrs =
      ((st.db.faces.find? (monospaceMatch attrs)).map (fun f => f.id),
        { st with
          monospace_cache :=
            (((attrs.style, attrs.weight, attrs.stretch),
              (st.db.faces.find? (monospaceMatch attrs)).map (fun f => f.id))
              :: st.monospace_cache),
          faceScanCount := st.faceScanCount + 1 }) := by
  simp [FontSystemState.query_monospace, h]

/-- C2: once `get_font` returns `None` for an id, the next call with the same
id also returns `None` and leaves the state entirely unchanged (a pure cache
read: no construction-path invocation, so the counter also stays put). -/
theorem get_font_negative_memoized (st : FontSystemState) (id : FaceID)
    (h : (st.get_font id).1 = none) :
    ((st.get_font id).2.get_font id).1 = none
    ∧ ((st.get_font id).2.get_font id).2 = (st.get_font id).2 := by
  unfold FontSystemState.get_font at h ⊢
  rcases hc : st.font_cache.lookup id with _ | f
  · simp only [hc] at h ⊢
    simp only [List.lookup] at h ⊢
    simp_all
  · simp only [hc] at h ⊢
    subst h
    simp

/-- Witness for C2 on the empty state: the first call fails (unknown id), the
second is a silent cache hit. -/
theorem get_font_negative_memoized_witness :
    (emptySt.get_font 7).1 = none
    ∧ (((emptySt.get_font 7).2.get_font 7).1 = none
      ∧ ((emptySt.get_font 7).2.get_font 7).2 = (emptySt.get_font 7).2) :=
  ⟨rfl, get_font_negative_memoized emptySt 7 rfl⟩

/-- Lookup into an association list is preserved by consing a binding for a
key that was absent. -/
theorem lookup_preserved_of_cons {α β : Type} [BEq α] [LawfulBEq α]
    (l : List (α × β)) (k0 : α) (v0 : β) (hk0 : l.lookup k0 = none)
    (k : α) (v : β) (h : l.lookup k = some v) :
    ((k0, v0) :: l).lookup k = some v := by
  simp only [List.lookup]
  rcases hbe : k == k0 with _ | _
  · exact h
  · exact absurd h (by simp [eq_of_beq hbe, hk0])

/-- All three caches of one state are still readable, with the same answers,
in another state. -/
def cachesPreserved (st st' : FontSystemState) : Prop :=
  (∀ k v, st.font_cache.lookup k = some v → st'.font_cache.lookup k = some v)
  ∧ (∀ k v, st.quey_cache.lookup k = some v → st'.quey_cache.lookup k = some v)
  ∧ (∀ k v, st.monospace_cache.lookup k = some v →
      st'.monospace_cache.lookup k = some v)

theorem cachesPreserved_refl (st : FontSystemState) : cachesPreserved st st :=
  ⟨fun _ _ h => h, fun _ _ h => h, fun _ _ h => h⟩

/-- C4: every FontSystem operation only grows the caches: any key cached
before a call to `get_font`, `query` or `query_monospace` is still cached
with the same answer afterwards.  (`face_name` and `locale` are embedded as
pure reads — in the source they take `&self` and only ever acquire read
locks — so they cannot change any cache by construction.) -/
theorem caches_grow_only (st : FontSystemState) (id : FaceID)
    (family : List FamilyOwned) (attrs mattrs : Attrs) :
    cachesPreserved st (st.get_font id).2
    ∧ cachesPreserved st (st.query family attrs).2
    ∧ cachesPreserved st (st.query_monospace mattrs).2 := by
  refine ⟨?_, ?_, ?_⟩
  · rcases hc : st.font_cache.lookup id with _ | f
    · rw [get_font_eq_miss st id hc]
      exact ⟨fun k v h => lookup_preserved_of_cons _ _ _ hc k v h,
        fun _ _ h => h, fun _ _ h => h⟩
    · rw [get_font_eq_hit st id f hc]
      exact cachesPreserved_refl st
  · rcases hc : st.quey_cache.lookup
        ⟨family, attrs.monospaced, attrs.stretch, attrs.style, attrs.weight⟩
        with _ | f
    · rw [query_eq_miss st family attrs hc]
      exact ⟨fun _ _ h => h,
        fun k v h => lookup_preserved_of_cons _ _ _ hc k v h,
        fun _ _ h => h⟩
    · rw [query_eq_hit st family attrs f hc]
      exact cachesPreserved_refl st
  · rcases hc : st.monospace_cache.lookup
        (mattrs.style, mattrs.weight, mattrs.stretch) with _ | f
    · rw [query_monospace_eq_miss st mattrs hc]
      exact ⟨fun _ _ h => h, fun _ _ h => h,
        fun k v h => lookup_preserved_of_cons _ _ _ hc k v h⟩
    · rw [query_monospace_eq_hit st mattrs f hc]
      exact cachesPreserved_refl st

/-- Witness for C4 at a concrete state and concrete arguments. -/
theorem caches_grow_only_witness :
    cachesPreserved twoMonoSt (twoMonoSt.get_font 1).2
    ∧ cachesPreserved twoMonoSt
        (twoMonoSt.query [FamilyOwned.monospace] ⟨false, 5, 0, 400⟩).2
    ∧ cachesPreserved twoMonoSt (twoMonoSt.query_monospace ⟨false, 5, 0, 400⟩).2 :=
  caches_grow_only twoMonoSt 1 [FamilyOwned.monospace] ⟨false, 5, 0, 400⟩
    ⟨false, 5, 0, 400⟩

/-- C7: `face_name` is a total `String`-valued function, and: for a known id
with at least one declared family name it returns the first one; for a known
id with no family names it returns the PostScript name; for an unknown id it
returns the fixed sentinel string. -/
theorem face_name_total_cases (st : FontSystemState) (id : FaceID) :
    (st.db.face id = none → st.face_name id = "invalid font id")
    ∧ (∀ face, st.db.face id = some face →
        (∀ n rest, face.families = n :: rest → st.face_name id = n)
        ∧ (face.families = [] → st.face_name id = face.post_script_name)) := by
  constructor
  · intro h
    simp [FontSystemState.face_name, h]
  · intro face h
    constructor
    · intro n rest hf
      simp [FontSystemState.face_name, h, hf]
    · intro hf
      simp [FontSystemState.face_name, h, hf]

/-- Witness for C7: the sentinel on an unknown id, and the first family name
on a known one. -/
theorem face_name_total_cases_witness :
    emptySt.face_name 3 = "invalid font id"
    ∧ twoMonoSt.face_name 1 = "Fira Mono" :=
  ⟨(face_name_total_cases emptySt 3).1 rfl,
    ((face_name_total_cases twoMonoSt 1).2 faceA rfl).1 "Fira Mono" [] rfl⟩

/-- `List.find?` returns the first element satisfying the predicate: it is at
some index, it satisfies the predicate, and every earlier index does not. -/
theorem find?_first_index {α : Type} (p : α → Bool) :
    ∀ (l : List α) (x : α), l.find? p = some x →
      ∃ i, ∃ hi : i < l.length, l.get ⟨i, hi⟩ = x ∧ p x = true
        ∧ ∀ j, ∀ hj : j < l.length, j < i → p (l.get ⟨j, hj⟩) = false := by
  intro l
  induction l with
  | nil => intro x h; simp at h
  | cons a l ih =>
    intro x h
    rcases hp : p a with _ | _
    · rw [List.find?_cons_of_neg _ (by simp [hp])] at h
      obtain ⟨i, hi, hget, hpx, hfirst⟩ := ih x h
      refine ⟨i + 1, by simpa using Nat.succ_lt_succ hi, by simpa using hget,
        hpx, ?_⟩
      intro j hj hlt
      match j with
      | 0 => simpa using hp
      | j + 1 =>
        have hj' : j < l.length := by simpa using Nat.lt_of_succ_lt_succ hj
        simpa using hfirst j hj' (Nat.lt_of_succ_lt_succ hlt)
    · rw [List.find?_cons_of_pos _ hp] at h
      obtain rfl : a = x := by simpa using h
      exact ⟨0, by simp, rfl, hp, fun j hj hlt => absurd hlt (Nat.not_lt_zero j)⟩

/-- The behaviour C3 claims for a `query_monospace` cache miss, as a predicate
on the pre-state and the attributes. -/
def monospaceScanSpec (st : FontSystemState) (attrs : Attrs) : Prop :=
  (∀ id, (st.query_monospace attrs).1 = some id →
    ∃ i, ∃ hi : i < st.db.faces.length,
      (st.db.faces.get ⟨i, hi⟩).id = id
      ∧ monospaceMatch attrs (st.db.faces.get ⟨i, hi⟩) = true
      ∧ ∀ j, ∀ hj : j < st.db.faces.length, j < i →
          monospaceMatch attrs (st.db.faces.get ⟨j, hj⟩) = false)
  ∧ ((st.query_monospace attrs).1 = none →
      ∀ face ∈ st.db.faces, monospaceMatch attrs face = false)
  ∧ (st.query_monospace attrs).2.monospace_cache.lookup
      (attrs.style, attrs.weight, attrs.stretch) = some (st.query_monospace attrs).1
  ∧ ((st.query_monospace attrs).2.query_monospace attrs).1
      = (st.query_monospace attrs).1
  ∧ ((st.query_monospace attrs).2.query_monospace attrs).2
      = (st.query_monospace attrs).2

/-- C3: on a cache miss, `query_monospace` returns the id of the first face
in database enumeration order that is monospaced and matches weight, stretch
and style exactly (`None` when no face matches); the result is memoized under
the (style, weight, stretch) triple, and the repeated call returns the same
result with the state — scan counter included — unchanged. -/
theorem query_monospace_scan_memoized (st : FontSystemState) (attrs : Attrs)
    (hmiss : st.monospace_cache.lookup (attrs.style, attrs.weight, attrs.stretch)
      = none) :
    monospaceScanSpec st attrs := by
  have hm := query_monospace_eq_miss st attrs hmiss
  have hcache : (st.query_monospace attrs).2.monospace_cache.lookup
      (attrs.style, attrs.weight, attrs.stretch) = some (st.query_monospace attrs).1 := by
    rw [hm]
    simp [List.lookup]
  refine ⟨?_, ?_, hcache, ?_, ?_⟩
  · intro id hid
    rw [hm] at hid
    rw [Option.map_eq_some'] at hid
    obtain ⟨face, hfind, rfl⟩ := hid
    obtain ⟨i, hi, hget, hpx, hfirst⟩ := find?_first_index _ _ _ hfind
    exact ⟨i, hi, by rw [hget], by rw [hget]; exact hpx, hfirst⟩
  · intro hnone face hmem
    rw [hm] at hnone
    rw [Option.map_eq_none'] at hnone
    rw [List.find?_eq_none] at hnone
    simpa using hnone face hmem
  · rw [(query_monospace_eq_hit _ attrs _ hcache)]
  · rw [(query_monospace_eq_hit _ attrs _ hcache)]

/-- Witness for C3: with two monospaced faces sharing the (style, weight,
stretch) triple, the scan deterministically returns the first one (`faceA`,
id 1) — the spec's tie-break — and the second call is a cache hit. -/
theorem query_monospace_scan_memoized_witness :
    (twoMonoSt.query_monospace ⟨false, 5, 0, 400⟩).1 = some 1
    ∧ monospaceScanSpec twoMonoSt ⟨false, 5, 0, 400⟩ :=
  ⟨rfl, query_monospace_scan_memoized twoMonoSt ⟨false, 5, 0, 400⟩ rfl⟩

/-- crate::CacheKey: face id, glyph index, quantized size, quantized subpixel
bins.  Only compared for equality/used as a map key here. -/
structure CacheKey where
  font_id : FaceID
  glyph_id : Nat
  font_size : Int
  x_bin : Nat
  y_bin : Nat
deriving DecidableEq, Repr

/-- peniko::Color: four u8 channels. -/
structure Color where
  r : Nat
  g : Nat
  b : Nat
  a : Nat
deriving DecidableEq, Repr

/-- peniko::Color::BLACK (opaque black). -/
def Color.BLACK : Color := ⟨0, 0, 0, 255⟩

/-- peniko::Color::rgba8. -/
def Color.rgba8 (r g b a : Nat) : Color := ⟨r, g, b, a⟩

/-- swash::zeno::Placement: i32 offsets, u32 extents. -/
structure Placement where
  left : Int
  top : Int
  width : Nat
  height : Nat
deriving DecidableEq, Repr

/-- swash::scale::image::Content. -/
inductive Content where
  | mask
  | subpixelMask
  | color
deriving DecidableEq, Repr

/-- swash::scale::image::Image: placement, content type and the raw byte
buffer (one byte per pixel for Mask, four per pixel for Color). -/
structure SwashImage where
  placement : Placement
  content : Content
  data : List Nat
deriving DecidableEq, Repr

/-- Opaque handle for a scaled swash outline. -/
abbrev Outline := Nat

/-- Opaque handle for a swash::zeno::Command path command. -/
abbrev Command := Nat

/-- The external swash scaling engine (`ScaleContext` + scaler pipeline),
modelled as pure functions of the cache key: `render` is the fixed
`Render::new([ColorOutline, ColorBitmap, Outline]).format(Alpha)...render`
pipeline of `swash_image`, `scaleOutline`/`scaleColorOutline` are
`Scaler::scale_outline`/`scale_color_outline`, and `pathCommands` is
`outline.path().commands().collect()`. -/
structure ScalerOracle where
  render : CacheKey → Option SwashImage
  scaleOutline : CacheKey → Option Outline
  scaleColorOutline : CacheKey → Option Outline
  pathCommands : Outline → List Command

/-- `swash_image` (swash.rs:21-58): resolve the Font Object through the
FontSystem's `get_font` (which may populate the font cache — the state is
threaded); on failure return `None`, otherwise run the render pipeline. -/
def swash_image (fs : FontSystemState) (oracle : ScalerOracle) (key : CacheKey) :
    Option SwashImage × FontSystemState :=
  let r := fs.get_font key.font_id
  match r.1 with
  | none => (none, r.2)
  | some _ => (oracle.render key, r.2)

/-- `swash_outline_commands` (swash.rs:60-91): resolve the Font Object; on
failure return `None`; otherwise scale the standard outline, falling back to
the color outline (`.or_else`), and collect the path commands; the final `?`
yields `None` when both scales fail. -/
def swash_outline_commands (fs : FontSystemState) (oracle : ScalerOracle)
    (key : CacheKey) : Option (List Command) × FontSystemState :=
  let r := fs.get_font key.font_id
  match r.1 with
  | none => (none, r.2)
  | some _ =>
    match (oracle.scaleOutline key).orElse (fun _ => oracle.scaleColorOutline key) with
    | none => (none, r.2)
    | some outline => (some (oracle.pathCommands outline), r.2)

/-- State of `SwashCache` (swash.rs:94-98): the scale context (as the pure
oracle), the two memoization maps, and an instrumentation counter ticking
whenever the outline-extraction path actually runs. -/
structure SwashCacheState where
  oracle : ScalerOracle
  image_cache : List (CacheKey × Option SwashImage)
  outline_command_cache : List (CacheKey × Option (List Command))
  outlineComputeCount : Nat

/-- `SwashCache::get_image_uncached` (swash.rs:110-113): rasterize without
touching the caches. -/
def SwashCacheState.get_image_uncached (sc : SwashCacheState)
    (fs : FontSystemState) (key : CacheKey) :
    Option SwashImage × SwashCacheState × FontSystemState :=
  let r := swash_image fs sc.oracle key
  (r.1, sc, r.2)

/-- `SwashCache::get_image` (swash.rs:115-120): `entry(..).or_insert_with`
memoization of `swash_image`. -/
def SwashCacheState.get_image (sc : SwashCacheState) (fs : FontSystemState)
    (key : CacheKey) : Option SwashImage × SwashCacheState × FontSystemState :=
  match sc.image_cache.lookup key with
  | some v => (v, sc, fs)
  | none =>
    let r := swash_image fs sc.oracle key
    (r.1, { sc with image_cache := (key, r.1) :: sc.image_cache }, r.2)

/-- `SwashCache::get_outline_commands` (swash.rs:122-131):
`entry(..).or_insert_with` memoization of `swash_outline_commands`.  The
counter ticks exactly when the extraction runs. -/
def SwashCacheState.get_outline_commands (sc : SwashCacheState)
    (fs : FontSystemState) (key : CacheKey) :
    Option (List Command) × SwashCacheState × FontSystemState :=
  match sc.outline_command_cache.lookup key with
  | some v => (v, sc, fs)
  | none =>
    let r := swash_outline_commands fs sc.oracle key
    (r.1,
      { sc with
        outline_command_cache := ((key, r.1) :: sc.outline_command_cache),
        outlineComputeCount := sc.outlineComputeCount + 1 }, r.2)

/-- Two's-complement wrap of an integer into the i32 range
[-2147483648, 2147483648): the value Rust's i32 addition/negation produces in
release builds (debug builds panic on overflow instead; we model the wrapping
semantics and the in-range cases coincide). -/
def wrap32 (n : Int) : Int := (n + 2147483648) % 4294967296 - 2147483648

/-- Rust's `u32 as i32` cast: reinterpret the bits, so values at or above
2^31 come out negative.  The source's `placement.width`/`height` are u32
(hence the inner `% 2^32` is the identity on every reachable value). -/
def u32AsI32 (n : Nat) : Int :=
  if n % 4294967296 < 2147483648 then ((n % 4294967296 : Nat) : Int)
  else ((n % 4294967296 : Nat) : Int) - 4294967296

/-- Iteration count of Rust's `for off in 0..(v as i32)` (swash.rs:147-148,
157-158): a range with a negative upper bound is empty, so the loop runs
max(v as i32, 0) times. -/
def loopBound (n : Nat) : Nat := (u32AsI32 n).toNat

/-- wrap32 is the identity on values already in i32 range. -/
theorem wrap32_eq_self (n : Int) (h1 : -2147483648 ≤ n)
    (h2 : n < 2147483648) : wrap32 n = n := by
  unfold wrap32
  rw [Int.emod_eq_of_lt (by omega) (by omega)]
  omega

/-- Below 2^31 the `as i32` cast is the identity, so the loop really runs n
times. -/
theorem loopBound_of_lt {n : Nat} (h : n < 2147483648) : loopBound n = n := by
  unfold loopBound u32AsI32
  rw [Nat.mod_eq_of_lt (by omega), if_pos (by omega)]
  simp

/-- All (row, column) pairs of an hn-row, wn-column iteration space in visit
order (outer loop rows, inner loop columns). -/
def rangePairs (wn hn : Nat) : List (Nat × Nat) :=
  (List.range hn).flatMap (fun offY => (List.range wn).map (fun offX => (offY, offX)))

/-- The (row, column) pairs visited by the nested pixel loops of
`with_pixels` (swash.rs:147-148, 157-158): the loop bounds are the u32
dimensions cast `as i32`, so a dimension at or above 2^31 yields an empty
range and no iterations. -/
def pixelPairs (w h : Nat) : List (Nat × Nat) :=
  rangePairs (loopBound w) (loopBound h)

/-- Reading the four RGBA bytes `data[i..i+3]`, as in the `Content::Color`
arm; Rust indexing panics out of bounds, embedded as `none`. -/
def colorAt (data : List Nat) (i : Nat) : Option Color :=
  match data[i]?, data[i + 1]?, data[i + 2]?, data[i + 3]? with
  | some r, some g, some b, some a => some (Color.rgba8 r g b a)
  | _, _, _, _ => none

/-- The `Content::Color` loop of `with_pixels` (swash.rs:155-172): walk the
pixels in visit order with the running byte index `i` (incremented by 4 per
pixel), reading each pixel's literal RGBA value; the coordinate sums
`x + off_x` / `y + off_y` are i32 additions, modelled with `wrap32`.  The
running index is a usize and cannot wrap (at most 4 * (2^31 - 1)^2 < 2^64),
so it stays a plain Nat. -/
def colorTraceGo (data : List Nat) (x y : Int) :
    List (Nat × Nat) → Nat → Option (List (Int × Int × Color))
  | [], _ => some []
  | p :: rest, i =>
    match colorAt data i, colorTraceGo data x y rest (i + 4) with
    | some c, some tl =>
      some ((wrap32 (x + (p.2 : Int)), wrap32 (y + (p.1 : Int)), c) :: tl)
    | _, _ => none

/-- The callback invocations of `SwashCache::with_pixels` (swash.rs:134-180)
for one image, in order, as `(x, y, color)` triples: `x` starts from
`placement.left` and `y` from the i32 negation of `placement.top`; all
coordinate arithmetic is i32 (wrap32).  A Mask image reports every visited
pixel with the fixed `Color::BLACK` (the base color's alpha is never
blended — the marked TODO); a Color image reports the literal RGBA bytes at
the running index; a SubpixelMask image only logs and produces no
invocations.  `none` models an out-of-bounds panic of the Color arm's
indexing. -/
def pixelTrace (image : SwashImage) (base : Color) :
    Option (List (Int × Int × Color)) :=
  let x := image.placement.left
  let y := wrap32 (-image.placement.top)
  match image.content with
  | Content.mask =>
    some ((pixelPairs image.placement.width image.placement.height).map
      (fun p => (wrap32 (x + (p.2 : Int)), wrap32 (y + (p.1 : Int)), Color.BLACK)))
  | Content.color =>
    colorTraceGo image.data x y
      (pixelPairs image.placement.width image.placement.height) 0
  | Content.subpixelMask => some []

/-- `SwashCache::with_pixels` as a whole: obtain the (cached) image via
`get_image`, then enumerate its pixels; a missing image produces no
invocations. -/
def SwashCacheState.with_pixels (sc : SwashCacheState) (fs : FontSystemState)
    (key : CacheKey) (base : Color) :
    SwashCacheState × FontSystemState × Option (List (Int × Int × Color)) :=
  let r := sc.get_image fs key
  match r.1 with
  | none => (r.2.1, r.2.2, some [])
  | some image => (r.2.1, r.2.2, pixelTrace image base)

/-- Peeling one outer-loop iteration off the iteration space. -/
theorem rangePairs_succ (wn n : Nat) :
    rangePairs wn (n + 1)
      = rangePairs wn n ++ (List.range wn).map (fun c => (n, c)) := by
  unfold rangePairs
  rw [List.range_succ, List.flatMap_append]
  simp

/-- The iteration space has hn * wn pairs. -/
theorem rangePairs_length (wn hn : Nat) : (rangePairs wn hn).length = hn * wn := by
  induction hn with
  | zero => simp [rangePairs]
  | succ n ih =>
    rw [rangePairs_succ, List.length_append, ih, List.length_map,
      List.length_range, Nat.succ_mul]

/-- The pair visited at position r * wn + c of the iteration space is (r, c). -/
theorem rangePairs_getElem? (wn hn r c : Nat) (hr : r < hn) (hc : c < wn) :
    (rangePairs wn hn)[r * wn + c]? = some (r, c) := by
  induction hn with
  | zero => exact absurd hr (Nat.not_lt_zero r)
  | succ n ih =>
    rw [rangePairs_succ, List.getElem?_append]
    by_cases hrn : r < n
    · have hlt : r * wn + c < (rangePairs wn n).length := by
        rw [rangePairs_length]
        calc r * wn + c < (r + 1) * wn := by rw [Nat.succ_mul]; omega
          _ ≤ n * wn := Nat.mul_le_mul_right wn hrn
      rw [if_pos hlt]
      exact ih hrn
    · have hrn' : r = n := by omega
      subst hrn'
      have hnlt : ¬ (r * wn + c < (rangePairs wn r).length) := by
        rw [rangePairs_length]; omega
      rw [if_neg hnlt, rangePairs_length, Nat.add_sub_cancel_left,
        List.getElem?_map, List.getElem?_range hc]
      rfl

/-- Below 2^31 in both dimensions the pixel loops visit the full w x h
iteration space. -/
theorem pixelPairs_of_lt {w h : Nat} (hw : w < 2147483648)
    (hh : h < 2147483648) : pixelPairs w h = rangePairs w h := by
  unfold pixelPairs
  rw [loopBound_of_lt hw, loopBound_of_lt hh]

/-- The behaviour the amended C5 claims of the pixel enumeration of a Mask
image with both dimensions below 2^31: the trace has exactly width * height
entries; the entry for (row r, column c) is at position r * width + c with
coordinates given by the source's i32 sums of (left, c) and (-top, r) and the
fixed opaque foreground color; and whenever those sums lie in i32 range the
coordinates are exactly left + c and -top + r. -/
def maskEnumSpec (image : SwashImage) (base : Color) : Prop :=
  ∃ l, pixelTrace image base = some l
    ∧ l.length = image.placement.width * image.placement.height
    ∧ (∀ r c, r < image.placement.height → c < image.placement.width →
        l[r * image.placement.width + c]? =
          some (wrap32 (image.placement.left + (c : Int)),
            wrap32 (wrap32 (-image.placement.top) + (r : Int)), Color.BLACK))
    ∧ (∀ r c, r < image.placement.height → c < image.placement.width →
        -2147483648 ≤ image.placement.left →
        image.placement.left + (c : Int) < 2147483648 →
        -2147483648 < image.placement.top →
        image.placement.top < 2147483648 →
        -image.placement.top + (r : Int) < 2147483648 →
        l[r * image.placement.width + c]? =
          some (image.placement.left + (c : Int),
            -image.placement.top + (r : Int), Color.BLACK))

/-- Core of C5 (amended): the Mask arm of the enumeration for in-range
dimensions. -/
theorem pixelTrace_mask (image : SwashImage) (base : Color)
    (hw : image.placement.width < 2147483648)
    (hh : image.placement.height < 2147483648)
    (h : image.content = Content.mask) : maskEnumSpec image base := by
  have hpp := pixelPairs_of_lt hw hh
  have hmain : ∀ r c, r < image.placement.height → c < image.placement.width →
      ((pixelPairs image.placement.width image.placement.height).map
        (fun p => (wrap32 (image.placement.left + (p.2 : Int)),
          wrap32 (wrap32 (-image.placement.top) + (p.1 : Int)),
          Color.BLACK)))[r * image.placement.width + c]? =
        some (wrap32 (image.placement.left + (c : Int)),
          wrap32 (wrap32 (-image.placement.top) + (r : Int)), Color.BLACK) := by
    intro r c hr hc
    rw [hpp, List.getElem?_map, rangePairs_getElem? _ _ _ _ hr hc]
    rfl
  refine ⟨(pixelPairs image.placement.width image.placement.height).map
      (fun p => (wrap32 (image.placement.left + (p.2 : Int)),
        wrap32 (wrap32 (-image.placement.top) + (p.1 : Int)), Color.BLACK)),
    ?_, ?_, hmain, ?_⟩
  · simp only [pixelTrace, h]
  · rw [List.length_map, hpp, rangePairs_length, Nat.mul_comm]
  · intro r c hr hc hL1 hL2 hT1 hT2 hT3
    have e1 : wrap32 (image.placement.left + (c : Int))
        = image.placement.left + (c : Int) :=
      wrap32_eq_self _ (by omega) (by omega)
    have e2 : wrap32 (-image.placement.top) = -image.placement.top :=
      wrap32_eq_self _ (by omega) (by omega)
    have e3 : wrap32 (-image.placement.top + (r : Int))
        = -image.placement.top + (r : Int) :=
      wrap32_eq_self _ (by omega) (by omega)
    rw [hmain r c hr hc, e2, e1, e3]

/-- C5 (amended): `with_pixels` on a cached Mask image whose placement width
and height are each below 2^31 (so the source's `as i32` loop bounds equal
the true dimensions) enumerates exactly width * height pixels, the
(row r, column c) one at the i32 sums of (left, c) and (-top, r) — equal to
left + c and -top + r whenever in i32 range — each with the fixed opaque
foreground color. -/
theorem with_pixels_mask_enumeration (sc : SwashCacheState)
    (fs : FontSystemState) (key : CacheKey) (base : Color) (image : SwashImage)
    (hcache : sc.image_cache.lookup key = some (some image))
    (hmask : image.content = Content.mask)
    (hw : image.placement.width < 2147483648)
    (hh : image.placement.height < 2147483648) :
    (sc.with_pixels fs key base).2.2 = pixelTrace image base
    ∧ maskEnumSpec image base := by
  refine ⟨?_, pixelTrace_mask image base hw hh hmask⟩
  simp [SwashCacheState.with_pixels, SwashCacheState.get_image, hcache]

/-- A fixed sample rasterization key. -/
def sampleKey : CacheKey :=
  { font_id := 7, glyph_id := 3, font_size := 14, x_bin := 1, y_bin := 0 }

/-- A scaler oracle that renders nothing. -/
def trivialOracle : ScalerOracle :=
  { render := fun _ => none, scaleOutline := fun _ => none,
    scaleColorOutline := fun _ => none, pathCommands := fun _ => [] }

/-- A concrete 2x2 all-covered Mask image placed at (left, top) = (10, 3). -/
def maskImage2x2 : SwashImage :=
  { placement := { left := 10, top := 3, width := 2, height := 2 },
    content := Content.mask, data := [255, 255, 255, 255] }

/-- A SwashCache state whose image cache holds `maskImage2x2` for `sampleKey`. -/
def maskCachedSt : SwashCacheState :=
  { oracle := trivialOracle, image_cache := [(sampleKey, some maskImage2x2)],
    outline_command_cache := [], outlineComputeCount := 0 }

/-- Witness for C5 at the spec's 2x2 Mask example: exactly 4 invocations, at
(left+0, -top+0), (left+1, -top+0), (left+0, -top+1), (left+1, -top+1), all
with the fixed opaque foreground color. -/
theorem with_pixels_mask_enumeration_witness :
    pixelTrace maskImage2x2 ⟨255, 0, 0, 255⟩ =
      some [(10, -3, Color.BLACK), (11, -3, Color.BLACK),
        (10, -2, Color.BLACK), (11, -2, Color.BLACK)]
    ∧ ((maskCachedSt.with_pixels emptySt sampleKey ⟨255, 0, 0, 255⟩).2.2
        = pixelTrace maskImage2x2 ⟨255, 0, 0, 255⟩
      ∧ maskEnumSpec maskImage2x2 ⟨255, 0, 0, 255⟩) :=
  ⟨by decide,
    with_pixels_mask_enumeration maskCachedSt emptySt sampleKey ⟨255, 0, 0, 255⟩
      maskImage2x2 (by decide) rfl (by decide) (by decide)⟩

/-- A Mask image whose u32 width is 2^31: the `as i32` loop bound is
negative, so the source makes zero callback invocations. -/
def maskImageHuge : SwashImage :=
  { placement := { left := 0, top := 0, width := 2147483648, height := 1 },
    content := Content.mask, data := [] }

/-- A SwashCache state caching `maskImageHuge` for `sampleKey` (reachable:
`image_cache` and the image fields are public). -/
def hugeMaskCachedSt : SwashCacheState :=
  { oracle := trivialOracle, image_cache := [(sampleKey, some maskImageHuge)],
    outline_command_cache := [], outlineComputeCount := 0 }

/-- Counterexample to C5 as originally stated: for a cached Mask image with
width = 2^31, height = 1, `with_pixels` makes zero invocations (the wrapped
i32 loop bound empties the range), not width * height = 2^31 as the
unrestricted claim asserts. -/
theorem with_pixels_mask_huge_counterexample :
    (hugeMaskCachedSt.with_pixels emptySt sampleKey ⟨0, 0, 0, 255⟩).2.2
      = some []
    ∧ ([] : List (Int × Int × Color)).length
        ≠ maskImageHuge.placement.width * maskImageHuge.placement.height :=
  ⟨by decide, by decide⟩

/-- C9 (noninterference of the Mask arm): two `with_pixels` runs on cached
Mask images that agree on placement but may differ arbitrarily in base color
and in the mask's coverage bytes produce the identical callback trace, and
every reported color is the fixed opaque foreground color. -/
theorem with_pixels_mask_independent (sc1 sc2 : SwashCacheState)
    (fs1 fs2 : FontSystemState) (key1 key2 : CacheKey) (b1 b2 : Color)
    (img1 img2 : SwashImage)
    (hc1 : sc1.image_cache.lookup key1 = some (some img1))
    (hc2 : sc2.image_cache.lookup key2 = some (some img2))
    (h1 : img1.content = Content.mask) (h2 : img2.content = Content.mask)
    (hp : img1.placement = img2.placement) :
    (sc1.with_pixels fs1 key1 b1).2.2 = (sc2.with_pixels fs2 key2 b2).2.2
    ∧ ∀ l, (sc1.with_pixels fs1 key1 b1).2.2 = some l →
        ∀ t ∈ l, t.2.2 = Color.BLACK := by
  have e1 : (sc1.with_pixels fs1 key1 b1).2.2 = pixelTrace img1 b1 := by
    simp [SwashCacheState.with_pixels, SwashCacheState.get_image, hc1]
  have e2 : (sc2.with_pixels fs2 key2 b2).2.2 = pixelTrace img2 b2 := by
    simp [SwashCacheState.with_pixels, SwashCacheState.get_image, hc2]
  constructor
  · rw [e1, e2]
    simp only [pixelTrace, h1, h2, hp]
  · intro l hl t ht
    rw [e1] at hl
    simp only [pixelTrace, h1, Option.some.injEq] at hl
    subst hl
    rw [List.mem_map] at ht
    obtain ⟨p, _, rfl⟩ := ht
    rfl

/-- A second Mask image with the same placement as `maskImage2x2` but
different coverage bytes. -/
def maskImage2x2b : SwashImage :=
  { placement := { left := 10, top := 3, width := 2, height := 2 },
    content := Content.mask, data := [0, 0, 0, 7] }

/-- A SwashCache state caching `maskImage2x2b` for `sampleKey`. -/
def maskCachedStB : SwashCacheState :=
  { oracle := trivialOracle, image_cache := [(sampleKey, some maskImage2x2b)],
    outline_command_cache := [], outlineComputeCount := 0 }

/-- Witness for C9: different data, different base color, same trace. -/
theorem with_pixels_mask_independent_witness :
    (maskCachedSt.with_pixels emptySt sampleKey ⟨255, 0, 0, 255⟩).2.2
      = (maskCachedStB.with_pixels emptySt sampleKey ⟨0, 255, 0, 0⟩).2.2
    ∧ ∀ l, (maskCachedSt.with_pixels emptySt sampleKey ⟨255, 0, 0, 255⟩).2.2
        = some l → ∀ t ∈ l, t.2.2 = Color.BLACK :=
  with_pixels_mask_independent maskCachedSt maskCachedStB emptySt emptySt
    sampleKey sampleKey ⟨255, 0, 0, 255⟩ ⟨0, 255, 0, 0⟩ maskImage2x2
    maskImage2x2b (by decide) (by decide) rfl rfl rfl

/-- The Color loop succeeds and is fully determined when every read is in
bounds: starting at byte index i0, each visited pixel k yields the literal
RGBA bytes at i0 + 4k, at the i32 coordinate sums. -/
theorem colorTraceGo_spec (data : List Nat) (x y : Int) :
    ∀ (ps : List (Nat × Nat)) (i0 : Nat), i0 + 4 * ps.length ≤ data.length →
      ∃ l, colorTraceGo data x y ps i0 = some l
        ∧ l.length = ps.length
        ∧ ∀ k, ∀ hk : k < ps.length,
            l[k]? = some (wrap32 (x + ((ps[k]).2 : Int)),
              wrap32 (y + ((ps[k]).1 : Int)),
              Color.rgba8 (data.getD (i0 + 4 * k) 0)
                (data.getD (i0 + 4 * k + 1) 0)
                (data.getD (i0 + 4 * k + 2) 0)
                (data.getD (i0 + 4 * k + 3) 0)) := by
  intro ps
  induction ps with
  | nil =>
    intro i0 _
    exact ⟨[], rfl, rfl, fun k hk => absurd hk (by simp)⟩
  | cons p rest ih =>
    intro i0 hlen
    rw [List.length_cons] at hlen
    have h0 : i0 < data.length := by omega
    have h1 : i0 + 1 < data.length := by omega
    have h2 : i0 + 2 < data.length := by omega
    have h3 : i0 + 3 < data.length := by omega
    have hca : colorAt data i0 = some (Color.rgba8 (data.getD (i0 + 4 * 0) 0)
        (data.getD (i0 + 4 * 0 + 1) 0) (data.getD (i0 + 4 * 0 + 2) 0)
        (data.getD (i0 + 4 * 0 + 3) 0)) := by
      unfold colorAt
      rw [List.getElem?_eq_getElem h0, List.getElem?_eq_getElem h1,
        List.getElem?_eq_getElem h2, List.getElem?_eq_getElem h3]
      have e0 : i0 + 4 * 0 = i0 := by omega
      rw [e0, List.getD_eq_getElem data 0 h0, List.getD_eq_getElem data 0 h1,
        List.getD_eq_getElem data 0 h2, List.getD_eq_getElem data 0 h3]
    obtain ⟨tl, htl, htlen, hidx⟩ := ih (i0 + 4) (by omega)
    refine ⟨(wrap32 (x + (p.2 : Int)), wrap32 (y + (p.1 : Int)),
        Color.rgba8 (data.getD (i0 + 4 * 0) 0) (data.getD (i0 + 4 * 0 + 1) 0)
          (data.getD (i0 + 4 * 0 + 2) 0) (data.getD (i0 + 4 * 0 + 3) 0)) :: tl,
      ?_, ?_, ?_⟩
    · unfold colorTraceGo
      rw [hca, htl]
    · rw [List.length_cons, List.length_cons, htlen]
    · intro k hk
      match k with
      | 0 =>
        simp only [List.getElem?_cons_zero, List.getElem_cons_zero]
      | Nat.succ k =>
        rw [List.getElem?_cons_succ]
        have hk' : k < rest.length := by
          rw [List.length_cons] at hk
          omega
        have hrec := hidx k hk'
        have e : i0 + 4 + 4 * k = i0 + 4 * (k + 1) := by omega
        rw [e] at hrec
        rw [hrec]
        simp

/-- The behaviour the amended C10 claims of the pixel enumeration of a Color
image with both dimensions below 2^31 and a large-enough data buffer: the
trace exists (every read of the data buffer is in bounds — the out-of-bounds
branch is never taken), and the entry for (row r, column c) carries the
literal RGBA value of the four consecutive bytes at offset 4(r * width + c),
at the source's i32 coordinate sums. -/
def colorEnumSpec (image : SwashImage) (base : Color) : Prop :=
  ∃ l, pixelTrace image base = some l
    ∧ l.length = image.placement.width * image.placement.height
    ∧ ∀ r c, r < image.placement.height → c < image.placement.width →
        l[r * image.placement.width + c]? = some
          (wrap32 (image.placement.left + (c : Int)),
            wrap32 (wrap32 (-image.placement.top) + (r : Int)),
            Color.rgba8
              (image.data.getD (4 * (r * image.placement.width + c)) 0)
              (image.data.getD (4 * (r * image.placement.width + c) + 1) 0)
              (image.data.getD (4 * (r * image.placement.width + c) + 2) 0)
              (image.data.getD (4 * (r * image.placement.width + c) + 3) 0))

/-- Core of C10 (amended): the Color arm of the enumeration for in-range
dimensions under the buffer-size precondition. -/
theorem pixelTrace_color (image : SwashImage) (base : Color)
    (hw : image.placement.width < 2147483648)
    (hh : image.placement.height < 2147483648)
    (hc : image.content = Content.color)
    (hd : 4 * image.placement.width * image.placement.height
      ≤ image.data.length) : colorEnumSpec image base := by
  have hpp := pixelPairs_of_lt hw hh
  have hlen0 : 0 + 4 * (pixelPairs image.placement.width
      image.placement.height).length ≤ image.data.length := by
    rw [hpp, rangePairs_length]
    calc 0 + 4 * (image.placement.height * image.placement.width)
        = 4 * image.placement.width * image.placement.height := by ring
      _ ≤ image.data.length := hd
  obtain ⟨l, hl, hlen, hidx⟩ := colorTraceGo_spec image.data
    image.placement.left (wrap32 (-image.placement.top))
    (pixelPairs image.placement.width image.placement.height) 0 hlen0
  refine ⟨l, ?_, ?_, ?_⟩
  · simp only [pixelTrace, hc]
    exact hl
  · rw [hlen, hpp, rangePairs_length, Nat.mul_comm]
  · intro r c hr hcc
    have hk : r * image.placement.width + c
        < (pixelPairs image.placement.width image.placement.height).length := by
      rw [hpp, rangePairs_length]
      calc r * image.placement.width + c
          < (r + 1) * image.placement.width := by rw [Nat.succ_mul]; omega
        _ ≤ image.placement.height * image.placement.width :=
            Nat.mul_le_mul_right image.placement.width hr
    have hget : (pixelPairs image.placement.width
        image.placement.height)[r * image.placement.width + c] = (r, c) := by
      have h2 := rangePairs_getElem? image.placement.width
        image.placement.height r c hr hcc
      rw [← hpp] at h2
      rw [List.getElem?_eq_getElem hk] at h2
      exact Option.some.inj h2
    have hthis := hidx (r * image.placement.width + c) hk
    rw [hget] at hthis
    simpa using hthis

/-- C10 (amended): `with_pixels` on a cached Color image whose placement
width and height are each below 2^31 and whose data buffer holds at least
4 * width * height bytes performs only in-bounds reads and hands the
callback, for the pixel at (row r, column c), the literal RGBA bytes at
offset 4(r * width + c). -/
theorem with_pixels_color_in_bounds (sc : SwashCacheState)
    (fs : FontSystemState) (key : CacheKey) (base : Color) (image : SwashImage)
    (hcache : sc.image_cache.lookup key = some (some image))
    (hc : image.content = Content.color)
    (hw : image.placement.width < 2147483648)
    (hh : image.placement.height < 2147483648)
    (hd : 4 * image.placement.width * image.placement.height
      ≤ image.data.length) :
    (sc.with_pixels fs key base).2.2 = pixelTrace image base
    ∧ colorEnumSpec image base := by
  refine ⟨?_, pixelTrace_color image base hw hh hc hd⟩
  simp [SwashCacheState.with_pixels, SwashCacheState.get_image, hcache]

/-- A concrete 2x2 Color image with exactly 16 data bytes. -/
def colorImage2x2 : SwashImage :=
  { placement := { left := 5, top := 1, width := 2, height := 2 },
    content := Content.color,
    data := [1, 2, 3, 4, 5, 6, 7, 8, 9, 10, 11, 12, 13, 14, 15, 16] }

/-- A SwashCache state caching `colorImage2x2` for `sampleKey`. -/
def colorCachedSt : SwashCacheState :=
  { oracle := trivialOracle, image_cache := [(sampleKey, some colorImage2x2)],
    outline_command_cache := [], outlineComputeCount := 0 }

/-- Witness for C10: the four pixels carry the literal consecutive RGBA
quadruples of the 16-byte buffer. -/
theorem with_pixels_color_in_bounds_witness :
    pixelTrace colorImage2x2 ⟨9, 9, 9, 9⟩ =
      some [(5, -1, ⟨1, 2, 3, 4⟩), (6, -1, ⟨5, 6, 7, 8⟩),
        (5, 0, ⟨9, 10, 11, 12⟩), (6, 0, ⟨13, 14, 15, 16⟩)]
    ∧ ((colorCachedSt.with_pixels emptySt sampleKey ⟨9, 9, 9, 9⟩).2.2
        = pixelTrace colorImage2x2 ⟨9, 9, 9, 9⟩
      ∧ colorEnumSpec colorImage2x2 ⟨9, 9, 9, 9⟩) :=
  ⟨by decide,
    with_pixels_color_in_bounds colorCachedSt emptySt sampleKey ⟨9, 9, 9, 9⟩
      colorImage2x2 (by decide) rfl (by decide) (by decide) (by decide)⟩

/-- A Color image whose u32 width is 2^31, with a data buffer satisfying the
original claim's 4 * width * height byte precondition. -/
def colorImageHuge : SwashImage :=
  { placement := { left := 0, top := 0, width := 2147483648, height := 1 },
    content := Content.color, data := List.replicate (4 * 2147483648) 0 }

/-- A SwashCache state caching `colorImageHuge` for `sampleKey`. -/
def hugeColorCachedSt : SwashCacheState :=
  { oracle := trivialOracle, image_cache := [(sampleKey, some colorImageHuge)],
    outline_command_cache := [], outlineComputeCount := 0 }

/-- Counterexample to C10 as originally stated: the buffer-size precondition
holds, yet for width = 2^31, height = 1 `with_pixels` reads no byte and
reports no pixel (the wrapped i32 loop bound empties the range), instead of
the width * height = 2^31 entries the unrestricted claim asserts. -/
theorem with_pixels_color_huge_counterexample :
    4 * colorImageHuge.placement.width * colorImageHuge.placement.height
      ≤ colorImageHuge.data.length
    ∧ (hugeColorCachedSt.with_pixels emptySt sampleKey ⟨0, 0, 0, 255⟩).2.2
        = some []
    ∧ ([] : List (Int × Int × Color)).length
        ≠ colorImageHuge.placement.width * colorImageHuge.placement.height := by
  refine ⟨?_, rfl, by decide⟩
  show 4 * 2147483648 * 1 ≤ (List.replicate (4 * 2147483648) (0 : Nat)).length
  rw [List.length_replicate]


/-- Unfolding lemma: `get_outline_commands` on a cache hit. -/
theorem get_outline_commands_eq_hit (sc : SwashCacheState)
    (fs : FontSystemState) (key : CacheKey) (v : Option (List Command))
    (h : sc.outline_command_cache.lookup key = some v) :
    sc.get_outline_commands fs key = (v, sc, fs) := by
  simp [SwashCacheState.get_outline_commands, h]

/-- Unfolding lemma: `get_outline_commands` on a cache miss. -/
theorem get_outline_commands_eq_miss (sc : SwashCacheState)
    (fs : FontSystemState) (key : CacheKey)
    (h : sc.outline_command_cache.lookup key = none) :
    sc.get_outline_commands fs key =
      ((swash_outline_commands fs sc.oracle key).1,
        { sc with
          outline_command_cache :=
            ((key, (swash_outline_commands fs sc.oracle key).1)
              :: sc.outline_command_cache),
          outlineComputeCount := sc.outlineComputeCount + 1 },
        (swash_outline_commands fs sc.oracle key).2) := by
  simp [SwashCacheState.get_outline_commands, h]

/-- The behaviour C6 claims of `get_outline_commands`: cache hits are pure
reads; a miss computes `swash_outline_commands`, which returns `None` when the
Font Object is unavailable, otherwise uses the standard scaled outline when it
exists and falls back to the color outline only when it does not, returning
`None` when both are unavailable; and the computed result — `None` included —
is cached, so an immediately repeated call returns the same result with both
states (extraction counter included) unchanged. -/
def outlineCommandsSpec (sc : SwashCacheState) (fs : FontSystemState)
    (key : CacheKey) : Prop :=
  (∀ v, sc.outline_command_cache.lookup key = some v →
    sc.get_outline_commands fs key = (v, sc, fs))
  ∧ (sc.outline_command_cache.lookup key = none →
      (sc.get_outline_commands fs key).1
        = (swash_outline_commands fs sc.oracle key).1
      ∧ ((fs.get_font key.font_id).1 = none →
          (sc.get_outline_commands fs key).1 = none)
      ∧ (∀ fh, (fs.get_font key.font_id).1 = some fh →
          (∀ o, sc.oracle.scaleOutline key = some o →
            (sc.get_outline_commands fs key).1
              = some (sc.oracle.pathCommands o))
          ∧ (sc.oracle.scaleOutline key = none →
              (∀ o, sc.oracle.scaleColorOutline key = some o →
                (sc.get_outline_commands fs key).1
                  = some (sc.oracle.pathCommands o))
              ∧ (sc.oracle.scaleColorOutline key = none →
                  (sc.get_outline_commands fs key).1 = none))))
  ∧ ((sc.get_outline_commands fs key).2.1.get_outline_commands
        (sc.get_outline_commands fs key).2.2 key
      = ((sc.get_outline_commands fs key).1,
          (sc.get_outline_commands fs key).2.1,
          (sc.get_outline_commands fs key).2.2))

/-- C6: `get_outline_commands` is memoized per CacheKey, tries the standard
outline before the color outline on a miss, and caches `None` — returned on
every later call without retrying — when neither source nor the Font Object
is available. -/
theorem get_outline_commands_memoized (sc : SwashCacheState)
    (fs : FontSystemState) (key : CacheKey) : outlineCommandsSpec sc fs key := by
  refine ⟨?_, ?_, ?_⟩
  · intro v hv
    exact get_outline_commands_eq_hit sc fs key v hv
  · intro hnone
    rw [get_outline_commands_eq_miss sc fs key hnone]
    refine ⟨rfl, ?_, ?_⟩
    · intro hfont
      simp [swash_outline_commands, hfont]
    · intro fh hfont
      constructor
      · intro o ho
        simp [swash_outline_commands, hfont, ho, Option.orElse]
      · intro ho
        constructor
        · intro o hco
          simp [swash_outline_commands, hfont, ho, hco, Option.orElse]
        · intro hco
          simp [swash_outline_commands, hfont, ho, hco, Option.orElse]
  · rcases hc : sc.outline_command_cache.lookup key with _ | v
    · rw [get_outline_commands_eq_miss sc fs key hc]
      have hhit : ({ sc with
          outline_command_cache :=
            ((key, (swash_outline_commands fs sc.oracle key).1)
              :: sc.outline_command_cache),
          outlineComputeCount :=
            sc.outlineComputeCount + 1 } : SwashCacheState).outline_command_cache.lookup
          key = some (swash_outline_commands fs sc.oracle key).1 := by
        simp [List.lookup]
      rw [get_outline_commands_eq_hit _ _ key _ hhit]
    · rw [get_outline_commands_eq_hit sc fs key v hc]
      rw [get_outline_commands_eq_hit sc fs key v hc]

/-- An empty SwashCache state over the trivial oracle. -/
def emptySwashSt : SwashCacheState :=
  { oracle := trivialOracle, image_cache := [],
    outline_command_cache := [], outlineComputeCount := 0 }

/-- Witness for C6 at concrete inputs: the empty database and the trivial
oracle provide neither a Font Object nor any outline, so the first call
computes and caches `None` (ticking the extraction counter once) and the
repeated call is a pure cache read. -/
theorem get_outline_commands_memoized_witness :
    (emptySwashSt.get_outline_commands emptySt sampleKey).1 = none
    ∧ (emptySwashSt.get_outline_commands emptySt sampleKey).2.1.outlineComputeCount = 1
    ∧ outlineCommandsSpec emptySwashSt emptySt sampleKey :=
  ⟨rfl, rfl, get_outline_commands_memoized emptySwashSt emptySt sampleKey⟩

/-- C8: `get_image_uncached` returns the SwashCache state unchanged — in
particular the image cache and the outline-command cache are untouched — and
returns exactly what the direct rasterization path (`swash_image`) produces;
its result does not depend on the cache contents: any other cache state with
the same scaling oracle gets the same answer. -/
theorem get_image_uncached_pure (sc : SwashCacheState) (fs : FontSystemState)
    (key : CacheKey) :
    (sc.get_image_uncached fs key).2.1 = sc
    ∧ (sc.get_image_uncached fs key).2.1.image_cache = sc.image_cache
    ∧ (sc.get_image_uncached fs key).2.1.outline_command_cache
        = sc.outline_command_cache
    ∧ (sc.get_image_uncached fs key).1 = (swash_image fs sc.oracle key).1
    ∧ ∀ sc' : SwashCacheState, sc'.oracle = sc.oracle →
        (sc'.get_image_uncached fs key).1 = (sc.get_image_uncached fs key).1 := by
  refine ⟨rfl, rfl, rfl, rfl, ?_⟩
  intro sc' h
  simp [SwashCacheState.get_image_uncached, h]

/-- Witness for C8: a state with a populated image cache and a state with an
empty one agree, and the caches come back untouched. -/
theorem get_image_uncached_pure_witness :
    (maskCachedSt.get_image_uncached emptySt sampleKey).2.1 = maskCachedSt
    ∧ (emptySwashSt.get_image_uncached emptySt sampleKey).1
        = (maskCachedSt.get_image_uncached emptySt sampleKey).1 :=
  ⟨(get_image_uncached_pure maskCachedSt emptySt sampleKey).1,
    (get_image_uncached_pure maskCachedSt emptySt sampleKey).2.2.2.2
      emptySwashSt rfl⟩
